import Mathlib

/-!
# Verification of the declaration-text editing engine

Shallow embedding of `src/dts-ops` (locator.ts, jsdoc.ts, inject.ts,
assert.ts, dry-run-extract.ts) of the sync-doc-defaults repository.

Modeling conventions:
* Source text is `List Char` (JS strings are UTF-16; all inputs used here
  are ASCII, where code units and characters coincide).
* JS whitespace classes are modeled on their ASCII members; the source
  only ever meets ASCII whitespace in declaration files.
* JS `undefined` results are `Option.none`; a JS function that provably
  never returns (an infinite loop) is modeled by an explicit diverge
  marker, and callers propagate it as `Option.none` of the whole call.
* JS runtime values handed to the literal formatter are modeled by the
  inductive `JSValue`; numbers are modeled as integers (their decimal
  rendering), floating-point-specific renderings are out of scope.
-/

set_option maxRecDepth 10000

/-- JS character test for the class `[ \t\r\n]` used by `extractLeadingJsdoc`
(jsdoc.ts line 43) and the adjacency test on line 54. -/
def extrWs (c : Char) : Bool :=
  c = ' ' || c = '\t' || c = '\r' || c = '\n'

/-- ASCII members of the JS regex class `\s` (and of the set trimmed by
`String.prototype.trim`). -/
def jsWs (c : Char) : Bool :=
  c = ' ' || c = '\t' || c = '\n' || c = '\r' || c = '\x0b' || c = '\x0c'

/-- JS regex `\w` (note: `$` is not a word character). -/
def isWordChar (c : Char) : Bool :=
  c.isAlpha || c.isDigit || c = '_'

/-- JS regex class `[ \t]` (indentation). -/
def isIndentChar (c : Char) : Bool :=
  c = ' ' || c = '\t'

/-- First character of a JS identifier in the locator's property pattern:
`[A-Za-z_$]`. -/
def isIdentStart (c : Char) : Bool :=
  c.isAlpha || c = '_' || c = '$'

/-- Continuation character `[\w$]` of the locator's property pattern. -/
def isIdentCont (c : Char) : Bool :=
  isWordChar c || c = '$'

/-- Convenience: the character list of a string literal. -/
def chars (s : String) : List Char :=
  s.data

/-- The single-quote character. -/
def squoteChar : Char :=
  Char.ofNat 39

/-- JS `text.slice(a, b)` on a character list (clamping semantics for
`0 ≤ a ≤ b`; negative indices are never used by the embedded code). -/
def sliceL (l : List Char) (a b : Nat) : List Char :=
  (l.drop a).take (b - a)

/-- JS `text[i]`, with the NUL character standing in for `undefined`
(inputs never contain NUL, so equality tests behave as in JS). -/
def charAtD (l : List Char) (i : Nat) : Char :=
  l.getD i (Char.ofNat 0)

/-- Whether `sub` occurs as a contiguous substring. -/
def hasSub (sub : List Char) : List Char → Bool
  | [] => sub.isEmpty
  | c :: t => sub.isPrefixOf (c :: t) || hasSub sub t

/-- Descending search used to model `String.prototype.lastIndexOf`:
the largest position `k ≤ start` where `sub` starts. -/
def lastIdxAux (sub l : List Char) : Nat → Option Nat
  | 0 => if sub.isPrefixOf l then some 0 else none
  | k + 1 =>
    if sub.isPrefixOf (l.drop (k + 1)) then some (k + 1) else lastIdxAux sub l k

/-- JS `l.lastIndexOf(sub, from)`: the highest match position not above
`from` (`none` for JS `-1`). A negative `from` behaves like 0 (JS clamps,
and position 0 is still inspected); an over-long `from` behaves like the
length (positions past the end never carry a nonempty match, and the
embedded code never searches for an empty needle). -/
def lastIndexOfFrom (sub l : List Char) (i : Int) : Option Nat :=
  lastIdxAux sub l i.toNat

/-- JS `trimEnd` (ASCII whitespace). -/
def trimRightJS (l : List Char) : List Char :=
  (l.reverse.dropWhile jsWs).reverse

/-- JS `trim` (ASCII whitespace). -/
def trimJS (l : List Char) : List Char :=
  trimRightJS (l.dropWhile jsWs)

/-- Split on the JS regex `/\r?\n/` (jsdoc.ts lines 26, 91, 98). A lone
carriage return is not a separator. -/
def splitRN : List Char → List (List Char)
  | [] => [[]]
  | '\r' :: '\n' :: t => [] :: splitRN t
  | '\n' :: t => [] :: splitRN t
  | c :: t =>
    match splitRN t with
    | [] => [[c]]
    | h :: r => (c :: h) :: r

/-- Test of the JS regex `/@<tag>(\s|$)/m` from inject.ts lines 68-69: an
occurrence of `tag` followed by a whitespace character, a line end, or the
end of the text (`$` with `/m` matches before `\n` or `\r`, both of which
are also `\s`, so the tail test collapses to whitespace-or-end). -/
def hasTagWS (tag : List Char) : List Char → Bool
  | [] => false
  | c :: t =>
    (tag.isPrefixOf (c :: t) &&
      (match (c :: t).drop tag.length with
       | [] => true
       | d :: _ => jsWs d)) ||
    hasTagWS tag t

/-- How a non-plain JS value behaves under `JSON.stringify`:
`undefLike` values (functions, symbols, `undefined`) make it return
`undefined`; `throwing` values (e.g. `BigInt`) make it throw. -/
inductive OtherKind where
  | undefLike
  | throwing
deriving DecidableEq, Repr

/-- Model of the JS runtime values reaching `formatDefaultLiteral`
(jsdoc.ts line 200). Numbers are modeled as integers. `vOther` carries the
value's `String(v)` rendering and its `JSON.stringify` behavior. -/
inductive JSValue where
  | vStr (s : List Char)
  | vNum (n : Int)
  | vBool (b : Bool)
  | vNull
  | vArr (xs : List JSValue)
  | vObj (fields : List (List Char × JSValue))
  | vOther (toStr : List Char) (kind : OtherKind)
deriving Repr

/-- Decimal digits of a natural number. -/
def natToChars (n : Nat) : List Char :=
  Nat.toDigits 10 n

/-- JS `String(n)` for an integer-valued number. -/
def intToChars (n : Int) : List Char :=
  if n < 0 then '-' :: natToChars n.natAbs else natToChars n.natAbs

/-- Hex digit (lower case), for `\u00XX` escapes. -/
def hexDigit (n : Nat) : Char :=
  if n < 10 then Char.ofNat (48 + n) else Char.ofNat (87 + n)

/-- JSON escaping of one character, as produced by `JSON.stringify`. -/
def jsonEscapeChar (c : Char) : List Char :=
  if c = '"' then ['\\', '"']
  else if c = '\\' then ['\\', '\\']
  else if c = '\n' then ['\\', 'n']
  else if c = '\r' then ['\\', 'r']
  else if c = '\t' then ['\\', 't']
  else if c = '\x08' then ['\\', 'b']
  else if c = '\x0c' then ['\\', 'f']
  else if c.toNat < 32 then
    ['\\', 'u', '0', '0', hexDigit (c.toNat / 16), hexDigit (c.toNat % 16)]
  else [c]

/-- JSON string quoting, `JSON.stringify` on a string value. -/
def jsonQuote (s : List Char) : List Char :=
  '"' :: (s.flatMap jsonEscapeChar) ++ ['"']

/-- Interpose commas between rendered items. -/
def joinComma : List (List Char) → List Char
  | [] => []
  | [x] => x
  | x :: y :: r => x ++ ',' :: joinComma (y :: r)

mutual

/-- Model of `JSON.stringify(v)`: `Except` failure is a thrown exception,
`Option.none` inside success is the JS `undefined` result. -/
def jsonStringify : JSValue → Except Unit (Option (List Char))
  | .vStr s => .ok (some (jsonQuote s))
  | .vNum n => .ok (some (intToChars n))
  | .vBool b => .ok (some (if b then chars ("true") else chars ("false")))
  | .vNull => .ok (some (chars ("null")))
  | .vArr xs =>
    match jsonArrItems xs with
    | .error e => .error e
    | .ok items => .ok (some ('[' :: joinComma items ++ [']']))
  | .vObj fs =>
    match jsonObjItems fs with
    | .error e => .error e
    | .ok items => .ok (some ('\x7b' :: joinComma items ++ ['\x7d']))
  | .vOther _ .undefLike => .ok none
  | .vOther _ .throwing => .error ()

/-- Array elements: an `undefined`-producing element renders as `null`. -/
def jsonArrItems : List JSValue → Except Unit (List (List Char))
  | [] => .ok []
  | v :: r =>
    match jsonStringify v with
    | .error e => .error e
    | .ok none =>
      match jsonArrItems r with
      | .error e => .error e
      | .ok rest => .ok (chars ("null") :: rest)
    | .ok (some s) =>
      match jsonArrItems r with
      | .error e => .error e
      | .ok rest => .ok (s :: rest)

/-- Object entries: an `undefined`-producing member is omitted. -/
def jsonObjItems : List (List Char × JSValue) → Except Unit (List (List Char))
  | [] => .ok []
  | (k, v) :: r =>
    match jsonStringify v with
    | .error e => .error e
    | .ok none => jsonObjItems r
    | .ok (some s) =>
      match jsonObjItems r with
      | .error e => .error e
      | .ok rest => .ok ((jsonQuote k ++ ':' :: s) :: rest)

end

mutual

/-- JS `String(v)`. Arrays join their elements with commas; plain objects
render as `[object Object]`. -/
def jsToString : JSValue → List Char
  | .vStr s => s
  | .vNum n => intToChars n
  | .vBool b => if b then chars ("true") else chars ("false")
  | .vNull => chars ("null")
  | .vArr xs => joinComma (jsToStringList xs)
  | .vObj _ => chars ("[object Object]")
  | .vOther t _ => t

/-- Array elements inside `Array.prototype.toString`: null and undefined
render as the empty string there. -/
def jsToStringList : List JSValue → List (List Char)
  | [] => []
  | .vNull :: r => [] :: jsToStringList r
  | .vOther _ .undefLike :: r => [] :: jsToStringList r
  | v :: r => jsToString v :: jsToStringList r

end

/-- jsdoc.ts lines 200-209, `formatDefaultLiteral`: strings are
JSON-quoted; numbers, booleans and null use `String(v)`; everything else
is `JSON.stringify`d and truncated to 117 characters plus an ellipsis when
longer than 120; a stringify result of `undefined` (whose `.length` access
throws) and a thrown stringify both fall back to `String(v)`. -/
def formatDefaultLiteral : JSValue → List Char
  | .vStr s => jsonQuote s
  | .vNum n => intToChars n
  | .vBool b => if b then chars ("true") else chars ("false")
  | .vNull => chars ("null")
  | v =>
    match jsonStringify v with
    | .ok (some s) => if s.length > 120 then s.take 117 ++ ['…'] else s
    | .ok none => jsToString v
    | .error _ => jsToString v

/-- Modelled from the spec (§4.4 Literal Formatter), for comparison with
the source's `formatDefaultLiteral`: a string maps to its JSON-quoted
escaped form; a number, boolean, or null maps to `String(value)`; any
other serializable value maps to its compact `JSON.stringify` text,
truncated to the first 117 characters plus a single ellipsis character
whenever it exceeds 120 characters; a value whose serialization fails or
is unusable falls back to its platform string conversion. -/
def formatLiteral_spec : JSValue → List Char
  | .vStr s => jsonQuote s
  | .vNum n => intToChars n
  | .vBool b => if b then chars ("true") else chars ("false")
  | .vNull => chars ("null")
  | v =>
    match jsonStringify v with
    | .ok (some s) => if s.length > 120 then s.take 117 ++ ['…'] else s
    | _ => jsToString v

/-- One word-boundary test of the leading `\b` in locator.ts line 146:
the following character is always a word character (`e` or `i`), so the
boundary holds exactly when the position is 0 or preceded by a non-word
character. -/
def wordBoundaryAt (text : List Char) (i : Nat) : Bool :=
  i = 0 || !isWordChar (charAtD text (i - 1))

/-- Match `\s+NAME\s*\x7b` at the start of `l`; returns the offset of the
matched open brace within `l`. The greedy `\s+` is tried longest-first
(`n` counts down), exactly as a backtracking engine would. -/
def matchTailAux (name l : List Char) : Nat → Option Nat
  | 0 => none
  | n + 1 =>
    let r := l.drop (n + 1)
    if name.isPrefixOf r then
      let r2 := r.drop name.length
      let w := (r2.takeWhile jsWs).length
      if charAtD r2 w = '\x7b' && w < r2.length then
        some (n + 1 + name.length + w)
      else matchTailAux name l n
    else matchTailAux name l n

/-- Match `\s+NAME\s*\x7b` at the start of `l` (greedy `\s+`). -/
def matchTail (name l : List Char) : Option Nat :=
  matchTailAux name l (l.takeWhile jsWs).length

/-- Match the pattern of locator.ts line 146,
`\b(?:export\s+)?interface\s+NAME\s*\x7b`, at absolute position `i` of
`text`; returns the absolute offset of the matched `\x7b` (the source
computes it as `m.index + m[0].lastIndexOf(brace)`, and the matched brace
is the last brace of any match). The optional `export\s+` group is
greedily tried first; `escapeRe` makes NAME a literal. -/
def matchHeadAt (text name : List Char) (i : Nat) : Option Nat :=
  if wordBoundaryAt text i then
    let l := text.drop i
    let core := fun (l2 : List Char) (base : Nat) =>
      if (chars ("interface")).isPrefixOf l2 then
        (matchTail name (l2.drop 9)).map (fun k => i + base + 9 + k)
      else none
    let exported :=
      if (chars ("export")).isPrefixOf l then
        let w := ((l.drop 6).takeWhile jsWs).length
        if w ≥ 1 then core (l.drop (6 + w)) (6 + w) else none
      else none
    match exported with
    | some k => some k
    | none => core l 0
  else none

/-- Leftmost match of the interface-head pattern (JS `re.exec`). -/
def findHeadAux (text name : List Char) : List Char → Nat → Option Nat
  | [], _ => none
  | _ :: t, i =>
    match matchHeadAt text name i with
    | some k => some k
    | none => findHeadAux text name t (i + 1)

/-- Leftmost interface-head match over the whole text. -/
def findHead (text name : List Char) : Option Nat :=
  findHeadAux text name text 0

/-- Naive depth walk of locator.ts lines 152-163: counts every brace,
including braces inside string literals and comments. Returns the
absolute position where the depth returns to zero. -/
def naiveCloseAux : List Char → Int → Nat → Option Nat
  | [], _, _ => none
  | c :: t, depth, pos =>
    if c = '\x7b' then naiveCloseAux t (depth + 1) (pos + 1)
    else if c = '\x7d' then
      if depth - 1 = 0 then some pos else naiveCloseAux t (depth - 1) (pos + 1)
    else naiveCloseAux t depth (pos + 1)

/-- Body range of an interface declaration. -/
structure BodyRange where
  bodyStart : Nat
  bodyEnd : Nat
deriving DecidableEq, Repr

/-- locator.ts lines 144-164, `findInterfaceBody`: regex search for the
head, then the naive brace walk from the matched open brace. -/
def findInterfaceBody (text name : List Char) : Option BodyRange :=
  match findHead text name with
  | none => none
  | some openIdx =>
    match naiveCloseAux (text.drop openIdx) 0 openIdx with
    | none => none
    | some k => some ⟨openIdx + 1, k⟩

/-- Property descriptor produced by `listInterfaceProps`. -/
structure PropD where
  name : List Char
  headStart : Nat
  indent : List Char
deriving DecidableEq, Repr

/-- Identifier alternative of the key pattern. -/
def keyIdent (c : Char) (t : List Char) : Option (List Char × Nat) :=
  if isIdentStart c then
    let rest := t.takeWhile isIdentCont
    some (c :: rest, rest.length + 1)
  else none

/-- Key alternatives of the property pattern (locator.ts line 180):
`"([^\x22]+)"` then `'([^']+)'` then `([A-Za-z_$][\w$]*)`, tried in
order (their first characters are disjoint, so order never matters).
Returns (name, key length in the text). -/
def keyMatch (l : List Char) : Option (List Char × Nat) :=
  match l with
  | '"' :: t =>
    let content := t.takeWhile (fun c => c ≠ '"')
    if content.length ≥ 1 && charAtD t content.length = '"' then
      some (content, content.length + 2)
    else none
  | c :: t =>
    if c = squoteChar then
      let content := t.takeWhile (fun x => x ≠ squoteChar)
      if content.length ≥ 1 && charAtD t content.length = squoteChar then
        some (content, content.length + 2)
      else keyIdent c t
    else keyIdent c t
  | [] => none

/-- After the key: `\??\s*:\s*[^;]*;`. Taking the optional `?` when
present is forced (a leftover `?` can never satisfy `\s*:`), and after
the colon the match extends to the first semicolon (which may lie on a
later line: `[^;]*` crosses newlines). Returns the length consumed. -/
def afterKeyMatch (l : List Char) : Option Nat :=
  let l1 := if charAtD l 0 = '?' then l.drop 1 else l
  let q : Nat := if charAtD l 0 = '?' then 1 else 0
  let w := (l1.takeWhile jsWs).length
  if charAtD l1 w = ':' && w < l1.length then
    let l2 := l1.drop (w + 1)
    let run := l2.takeWhile (fun c => c ≠ ';')
    if run.length < l2.length then
      some (q + w + 1 + run.length + 1)
    else none
  else none

/-- Match the whole property pattern of locator.ts line 180 at the start
of `l` (a line start). Returns (indent, name, total match length). The
greedy `(?:readonly\s+)?` is tried first and abandoned as a unit if the
rest fails. -/
def propMatchAt (l : List Char) : Option (List Char × List Char × Nat) :=
  let indent := l.takeWhile isIndentChar
  let l1 := l.drop indent.length
  let keyFrom := fun (l2 : List Char) (base : Nat) =>
    match keyMatch l2 with
    | none => none
    | some (name, klen) =>
      match afterKeyMatch (l2.drop klen) with
      | none => none
      | some alen => some (indent, name, indent.length + base + klen + alen)
  let withReadonly :=
    if (chars ("readonly")).isPrefixOf l1 then
      let w := ((l1.drop 8).takeWhile jsWs).length
      if w ≥ 1 then keyFrom (l1.drop (8 + w)) (8 + w) else none
    else none
  match withReadonly with
  | some r => some r
  | none => keyFrom l1 0

/-- The `while ((m = propRe.exec(seg)))` loop of locator.ts lines
185-192: positions are tried left to right; the `^` anchor (with `/m`)
holds at position 0 and after a line terminator; after a match the scan
resumes at its end, which the `skip` counter implements one character at
a time (positions inside a previous match are never match starts, as
with the regex lastIndex). -/
def scanPropsAux (offset : Nat) : List Char → Nat → Option Char → Nat → List PropD
  | [], _, _, _ => []
  | c :: t, pos, _prev, skip + 1 => scanPropsAux offset t (pos + 1) (some c) skip
  | c :: t, pos, prev, 0 =>
    let atLS := prev = none || prev = some '\n' || prev = some '\r'
    if atLS then
      match propMatchAt (c :: t) with
      | some (indent, name, len) =>
        ⟨name, offset + pos + indent.length, indent⟩ ::
          scanPropsAux offset t (pos + 1) (some c) (len - 1)
      | none => scanPropsAux offset t (pos + 1) (some c) 0
    else scanPropsAux offset t (pos + 1) (some c) 0

/-- locator.ts lines 167-194, `listInterfaceProps`. -/
def listInterfaceProps (text name : List Char) : List PropD :=
  match findInterfaceBody text name with
  | none => []
  | some b => scanPropsAux b.bodyStart (sliceL text b.bodyStart b.bodyEnd) 0 none 0

/-- The backtick character (string-literal delimiter in the scanner). -/
def backtickChar : Char :=
  Char.ofNat 96

/-- State walk of dry-run-extract.ts `findMatchingBracket` (the file is
concatenated into locator.ts's view at lines 284-330): skips string
literals (quote kind tracked, backslash escapes), `//` line comments and
`/* */` block comments before counting depth. `prev` is always the
previous text character, as in the source. -/
def fmbAux (openCh closeCh : Char) :
    List Char → Nat → Option Char → Option Char → Bool → Bool → Int → Option Nat
  | [], _, _, _, _, _, _ => none
  | c :: t, pos, prev, inS, inLine, inBlock, depth =>
    if inLine then
      fmbAux openCh closeCh t (pos + 1) (some c) inS (c != '\n') inBlock depth
    else if inBlock then
      fmbAux openCh closeCh t (pos + 1) (some c) inS false
        (!(prev = some '*' && c = '/')) depth
    else
      match inS with
      | some q =>
        if c = q && prev ≠ some '\\' then
          fmbAux openCh closeCh t (pos + 1) (some c) none false false depth
        else fmbAux openCh closeCh t (pos + 1) (some c) (some q) false false depth
      | none =>
        if prev = some '/' && c = '/' then
          fmbAux openCh closeCh t (pos + 1) (some c) none true false depth
        else if prev = some '/' && c = '*' then
          fmbAux openCh closeCh t (pos + 1) (some c) none false true depth
        else if c = '"' || c = squoteChar || c = backtickChar then
          fmbAux openCh closeCh t (pos + 1) (some c) (some c) false false depth
        else if c = openCh then
          fmbAux openCh closeCh t (pos + 1) (some c) none false false (depth + 1)
        else if c = closeCh then
          if depth - 1 = 0 then some pos
          else fmbAux openCh closeCh t (pos + 1) (some c) none false false (depth - 1)
        else fmbAux openCh closeCh t (pos + 1) (some c) none false false depth

/-- dry-run-extract.ts `findMatchingBracket(s, openIdx, openCh, closeCh)`. -/
def findMatchingBracket (s : List Char) (openIdx : Nat) (openCh closeCh : Char) :
    Option Nat :=
  fmbAux openCh closeCh (s.drop openIdx) openIdx
    (if openIdx = 0 then none else some (charAtD s (openIdx - 1))) none false false 0

/-- Which JSDoc tag to write (types.ts: `'default' | 'defaultValue'`). -/
inductive PreferredTag where
  | tagDefault
  | tagDefaultValue
deriving DecidableEq, Repr

/-- The tag name as text. -/
def tagNameChars : PreferredTag → List Char
  | .tagDefault => chars ("default")
  | .tagDefaultValue => chars ("defaultValue")

/-- Backward whitespace walk of jsdoc.ts lines 42-43:
`while (i > 0 && /[ \t\r\n]/.test(fullText[i-1])) i--`. -/
def wsWalkBack (text : List Char) : Nat → Nat
  | 0 => 0
  | i + 1 => if extrWs (charAtD text i) then wsWalkBack text i else i + 1

/-- Test of `/^\s*\/\/(.*)$/` on one extracted line (the line never
contains a newline; `.` cannot match a stray carriage return, and `$`
without `/m` only matches at the very end). -/
def lineSlashSlash (line : List Char) : Bool :=
  let w := (line.takeWhile jsWs).length
  charAtD line w = '/' && charAtD line (w + 1) = '/' && w + 1 < line.length &&
    (line.drop (w + 2)).all (fun c => c ≠ '\r')

/-- Test of `/^\s*$/`. -/
def lineBlank (line : List Char) : Bool :=
  line.all jsWs

/-- The `//`-fallback loop of jsdoc.ts lines 63-75. Returns `none` when
the JS loop never terminates: once `j` sits at a line start whose
preceding character is a newline, `lastIndexOf('\n', j - 1)` yields
`j - 1`, so `lineStart = j`, the empty line is blank, and the state
repeats forever. Otherwise returns the final `start` accumulator. The
first argument is fuel for structural recursion; since `j` strictly
decreases on every recursive call, fuel `j + 1` never runs out, so the
fuel-exhaustion branch is unreachable from `extractLeadingJsdoc`. -/
def fallbackAux (fullText : List Char) : Nat → Nat → Option Nat → Option (Option Nat)
  | _, 0, start => some start
  | 0, _ + 1, _ => none
  | fuel + 1, j + 1, start =>
    let lineStart :=
      match lastIndexOfFrom (chars ("\n")) fullText (Int.ofNat (j + 1) - 1) with
      | none => 0
      | some k => k + 1
    let line := sliceL fullText lineStart (j + 1)
    if lineStart ≤ j then
      if lineSlashSlash line then fallbackAux fullText fuel lineStart (some lineStart)
      else if !lineBlank line then some start
      else fallbackAux fullText fuel lineStart start
    else
      none

/-- Result of `extractLeadingJsdoc`: the found comment is
(rangeStart, rangeEnd, rawText); `diverge` marks the input states on
which the source function loops forever. -/
inductive ExtractRes where
  | diverge
  | res (found : Option (Nat × Nat × List Char))
deriving DecidableEq, Repr

/-- jsdoc.ts lines 37-82, `extractLeadingJsdoc`: walk back over
whitespace; accept a `/** ... */` block whose end is separated from the
property head only by whitespace, extending the range to the start of
the opener's line; otherwise fall back to the `//`-line scan. -/
def extractLeadingJsdoc (fullText : List Char) (headStart : Nat) : ExtractRes :=
  let i := wsWalkBack fullText headStart
  let blockTry : Option (Nat × Nat × List Char) :=
    match lastIndexOfFrom (chars ("*/")) fullText (Int.ofNat i - 1) with
    | none => none
    | some blockEnd =>
      match lastIndexOfFrom (chars ("/**")) fullText (Int.ofNat blockEnd - 2) with
      | none => none
      | some blockStart =>
        let lineStart :=
          match lastIndexOfFrom (chars ("\n")) fullText (Int.ofNat blockStart - 1) with
          | none => 0
          | some k => k + 1
        let between := sliceL fullText (blockEnd + 2) headStart
        if between.all extrWs then
          some (lineStart, blockEnd + 2, sliceL fullText blockStart (blockEnd + 2))
        else none
  match blockTry with
  | some r => .res (some r)
  | none =>
    match fallbackAux fullText (headStart + 1) headStart none with
    | none => .diverge
    | some (some s) =>
      if s < headStart then .res (some (s, headStart, sliceL fullText s headStart))
      else .res none
    | some none => .res none

/-- One structured `@tag text` entry. -/
structure JTag where
  tag : List Char
  text : List Char
deriving DecidableEq, Repr

/-- Parsed JSDoc (types.ts `Jsdoc`). -/
structure Jsdoc where
  description : List (List Char)
  tags : List JTag
deriving DecidableEq, Repr

/-- jsdoc.ts lines 112-117, `trimBlank`: drop leading and trailing lines
that are blank after `trim()`. -/
def trimBlank (lines : List (List Char)) : List (List Char) :=
  ((lines.dropWhile fun l => trimJS l = []).reverse.dropWhile
    fun l => trimJS l = []).reverse

/-- JS `l.replace(/^\s*\/\/\s?/, '')`: strip whitespace, the two
slashes, and at most one following whitespace character; no change when
the pattern does not match. -/
def stripSlashSlash (line : List Char) : List Char :=
  let w := (line.takeWhile jsWs).length
  if charAtD line w = '/' && charAtD line (w + 1) = '/' && w + 1 < line.length then
    match line.drop (w + 2) with
    | [] => []
    | d :: t => if jsWs d then t else d :: t
  else line

/-- JS `l.replace(/^\s*\*\s?/, '')` (jsdoc.ts line 99). -/
def stripStar (line : List Char) : List Char :=
  let w := (line.takeWhile jsWs).length
  if charAtD line w = '*' && w < line.length then
    match line.drop (w + 1) with
    | [] => []
    | d :: t => if jsWs d then t else d :: t
  else line

/-- JS `raw.replace(/^\/\*\*|\*\/$/g, '')` (jsdoc.ts line 97): the `^`
match can only be the leading `/**`, the `$` match only the trailing
`*/`, and the two never overlap once the prefix is consumed first. -/
def stripJsdocDelims (raw : List Char) : List Char :=
  let r1 := if (chars ("/**")).isPrefixOf raw then raw.drop 3 else raw
  if (chars ("*/")).isSuffixOf r1 then r1.take (r1.length - 2) else r1

/-- Match of `/^@(\w+)\s*(.*)$/` on one line: tag word and remainder
(after the greedy `\s*`); fails when the remainder still contains a
carriage return, which `.` cannot match. -/
def tagMatch (line : List Char) : Option (List Char × List Char) :=
  match line with
  | '@' :: t =>
    let w := t.takeWhile isWordChar
    if w.isEmpty then none
    else
      let rest0 := t.drop w.length
      let rest := rest0.drop (rest0.takeWhile jsWs).length
      if rest.all (fun c => c ≠ '\r') then some (w, rest) else none
  | _ => none

/-- Tag/description split of the comment body (jsdoc.ts lines 101-109). -/
def splitTags : List (List Char) → List (List Char) × List JTag
  | [] => ([], [])
  | line :: r =>
    let (ds, ts) := splitTags r
    match tagMatch line with
    | some (w, rest) => (ds, ⟨w, trimJS rest⟩ :: ts)
    | none => (line :: ds, ts)

/-- jsdoc.ts lines 86-110, `parseJsdoc`: `//`-style input (no `/**`
head) is all description with its comment markers stripped; block input
is stripped of its delimiters and `*` decoration and split into
description lines and `@tag` entries in source order. -/
def parseJsdoc (raw : Option (List Char)) : Jsdoc :=
  match raw with
  | none => ⟨[], []⟩
  | some rawC =>
    if !(chars ("/**")).isPrefixOf rawC then
      let lines := (splitRN rawC).map (fun l => trimRightJS (stripSlashSlash l))
      ⟨trimBlank lines, []⟩
    else
      let body := (splitRN (stripJsdocDelims rawC)).map (fun l => trimRightJS (stripStar l))
      let (ds, ts) := splitTags body
      ⟨trimBlank ds, ts⟩

/-- Interpose newlines (JS `out.join('\n')`). -/
def joinNl : List (List Char) → List Char
  | [] => []
  | [x] => x
  | x :: y :: r => x ++ '\n' :: joinNl (y :: r)

/-- jsdoc.ts lines 120-150, `renderJsdocCanonical`. -/
def renderJsdocCanonical (indent starPad : List Char)
    (description : List (List Char)) (tags : List JTag)
    (defaultLiteral : List Char) (preferredTag : PreferredTag) : List Char :=
  let rest := tags.filter fun t =>
    !(t.tag == chars ("default")) && !(t.tag == chars ("defaultValue"))
  let star := fun (s : List Char) => indent ++ ' ' :: '*' :: (starPad ++ s)
  let openL := indent ++ chars ("/**")
  let closeL := indent ++ chars (" */")
  let descPart :=
    if description.isEmpty then [] else description.map star ++ [star []]
  let tagLine := star ('@' :: (tagNameChars preferredTag ++ ' ' :: defaultLiteral))
  let restLines := rest.map fun t =>
    star ((if !t.tag.isEmpty then '@' :: t.tag else []) ++
          (if !t.text.isEmpty then ' ' :: t.text else []))
  joinNl (openL :: (descPart ++ tagLine :: restLines ++ [closeL]))

/-- jsdoc.ts lines 8-13, `chooseDocIndent`. In JS an empty existing
indent is falsy, so it is treated like an absent one. -/
def chooseDocIndent (propIndent : List Char) (existingDocIndent : Option (List Char)) :
    List Char :=
  match existingDocIndent with
  | none => propIndent
  | some [] => propIndent
  | some e =>
    if max propIndent.length e.length - min propIndent.length e.length ≤ 1 then e
    else propIndent

/-- jsdoc.ts lines 16-21, `detectDocIndent`. -/
def detectDocIndent (fullText : List Char) (rangeStart : Nat) : List Char :=
  let lineStart :=
    match lastIndexOfFrom (chars ("\n")) fullText (Int.ofNat rangeStart - 1) with
    | none => 0
    | some k => k + 1
  (sliceL fullText lineStart rangeStart).takeWhile isIndentChar

/-- Star-pad detection on one decorated line: the `\s?` group captures
the character after the `*` only when it is whitespace, and the pad is a
space exactly when that captured character is a space. -/
def starPadOfLine (line : List Char) : Option (List Char) :=
  let w := (line.takeWhile jsWs).length
  if charAtD line w = '*' && w < line.length then
    some (if charAtD line (w + 1) = ' ' then [' '] else [])
  else none

/-- First line (after the opener) matching `/^(\s*)\*(\s?)/`. -/
def findStarPad : List (List Char) → List Char
  | [] => [' ']
  | line :: r =>
    match starPadOfLine line with
    | some p => p
    | none => findStarPad r

/-- jsdoc.ts lines 24-34, `detectStarPadFromDoc`. -/
def detectStarPadFromDoc (raw : Option (List Char)) : List Char :=
  match raw with
  | none => [' ']
  | some r =>
    if !(chars ("/**")).isPrefixOf r then [' ']
    else findStarPad ((splitRN r).drop 1)

/-- jsdoc.ts lines 153-187, `upsertDefaultForProp`. `none` propagates a
diverging `extractLeadingJsdoc`. -/
def upsertDefaultForProp (fullText : List Char) (propHeadStart : Nat)
    (propIndent literal : List Char) (preferredTag : PreferredTag) :
    Option (List Char) :=
  match extractLeadingJsdoc fullText propHeadStart with
  | .diverge => none
  | .res found =>
    let rawText := found.map fun r => r.2.2
    let existingDocIndent := found.map fun r => detectDocIndent fullText r.1
    let starPad := detectStarPadFromDoc rawText
    let baseIndent := chooseDocIndent propIndent existingDocIndent
    let parsed := parseJsdoc rawText
    let next := renderJsdocCanonical baseIndent starPad parsed.description
      parsed.tags literal preferredTag
    match found with
    | some (r0, r1, _) =>
      let sep := if charAtD fullText r1 = '\n' then [] else ['\n']
      some (sliceL fullText 0 r0 ++ next ++ sep ++ fullText.drop r1)
    | none =>
      let sep := if charAtD fullText propHeadStart = '\n' then [] else ['\n']
      some (sliceL fullText 0 propHeadStart ++ next ++ sep ++
        fullText.drop propHeadStart)

/-- jsdoc.ts lines 192-197, `readDefaultLiteralFromJsdoc`: the first
`default`/`defaultValue` tag's trimmed text, with an empty result
collapsing to `undefined` through `|| undefined`. -/
def readDefaultLiteralFromJsdoc (raw : Option (List Char)) : Option (List Char) :=
  match raw with
  | none => none
  | some _ =>
    match (parseJsdoc raw).tags.find? (fun t =>
        t.tag == chars ("default") || t.tag == chars ("defaultValue")) with
    | none => none
    | some t =>
      let v := trimJS t.text
      if v.isEmpty then none else some v

/-- One entry of the `missing` report of inject.ts. -/
structure MissingRec where
  interfaceName : List Char
  prop : List Char
deriving DecidableEq, Repr

/-- Result record of `injectDefaultsIntoDts` (types.ts `DtsEditResult`). -/
structure DtsEditResult where
  updatedText : List Char
  updatedCount : Nat
  missing : List MissingRec
deriving DecidableEq, Repr

/-- Per-property injection task (inject.ts lines 29-34; named `Task` in the source, renamed here to avoid the core `Task` type). -/
structure InjTask where
  prop : List Char
  headStart : Nat
  indent : List Char
  expected : List Char
deriving DecidableEq, Repr

/-- Task/missing construction loop of inject.ts lines 39-54, in
`Object.entries` order (the defaults map is modeled as its entry list). -/
def buildTasks (interfaceName : List Char) (props : List PropD) :
    List (List Char × JSValue) → List InjTask × List MissingRec
  | [] => ([], [])
  | (prop, value) :: r =>
    let (ts, ms) := buildTasks interfaceName props r
    match props.find? (fun p => p.name == prop) with
    | none => (ts, ⟨interfaceName, prop⟩ :: ms)
    | some p => (⟨prop, p.headStart, p.indent, formatDefaultLiteral value⟩ :: ts, ms)

/-- Stable insertion for the descending sort of inject.ts line 57
(`(a, b) => b.headStart - a.headStart`). -/
def insertDesc (t : InjTask) : List InjTask → List InjTask
  | [] => [t]
  | u :: r => if t.headStart > u.headStart then t :: u :: r else u :: insertDesc t r

/-- Stable bottom-up sort of the tasks (highest `headStart` first). -/
def sortTasksDesc : List InjTask → List InjTask
  | [] => []
  | t :: r => insertDesc t (sortTasksDesc r)

/-- Skip test of inject.ts lines 64-77: the literal matches and the
preferred tag is present and the other tag is absent — with tag presence
decided by the raw-text regexes, not the parsed tags. -/
def alreadyCorrect (preferredTag : PreferredTag) (jsdocRaw : Option (List Char))
    (expected : List Char) : Bool :=
  let fnd := readDefaultLiteralFromJsdoc jsdocRaw
  let raw := jsdocRaw.getD []
  let hasDefault := hasTagWS (chars ("@default")) raw
  let hasDefaultValue := hasTagWS (chars ("@defaultValue")) raw
  let hasPreferred :=
    match preferredTag with
    | .tagDefault => hasDefault
    | .tagDefaultValue => hasDefaultValue
  let hasOther :=
    match preferredTag with
    | .tagDefault => hasDefaultValue
    | .tagDefaultValue => hasDefault
  (match fnd with
   | some f => f == expected
   | none => false) && hasPreferred && !hasOther

/-- Bottom-up application loop of inject.ts lines 62-88: re-extract the
leading comment from the current text, skip when already correct,
otherwise upsert and count. `none` propagates a diverging extraction. -/
def injectLoop (preferredTag : PreferredTag) :
    List InjTask → List Char → Nat → Option (List Char × Nat)
  | [], text, updated => some (text, updated)
  | t :: rest, text, updated =>
    match extractLeadingJsdoc text t.headStart with
    | .diverge => none
    | .res found =>
      let jsdocRaw := found.map fun r => r.2.2
      if alreadyCorrect preferredTag jsdocRaw t.expected then
        injectLoop preferredTag rest text updated
      else
        match upsertDefaultForProp text t.headStart t.indent t.expected preferredTag with
        | none => none
        | some text2 => injectLoop preferredTag rest text2 (updated + 1)

/-- inject.ts lines 11-91, `injectDefaultsIntoDts`. When the interface
yields no properties, the original text is returned with every defaults
key reported missing; otherwise tasks are built, sorted bottom-up and
applied. `none` marks the runs on which the source never returns. -/
def injectDefaultsIntoDts (dtsText interfaceName : List Char)
    (defaults : List (List Char × JSValue)) (preferredTag : PreferredTag) :
    Option DtsEditResult :=
  let props := listInterfaceProps dtsText interfaceName
  if props.isEmpty then
    some ⟨dtsText, 0, defaults.map fun kv => ⟨interfaceName, kv.1⟩⟩
  else
    let (tasks, missing) := buildTasks interfaceName props defaults
    match injectLoop preferredTag (sortTasksDesc tasks) dtsText 0 with
    | none => none
    | some (text, updated) => some ⟨text, updated, missing⟩

/-- One mismatch record of assert.ts (`found = none` means missing). -/
structure Mismatch where
  interfaceName : List Char
  prop : List Char
  expected : List Char
  found : Option (List Char)
deriving DecidableEq, Repr

/-- Result of `assertDefaultsInDts`. -/
structure AssertResult where
  ok : Bool
  mismatches : List Mismatch
deriving DecidableEq, Repr

/-- Comparison loop of assert.ts lines 132-145, in entries order. -/
def assertLoop (dtsText interfaceName : List Char) (props : List PropD) :
    List (List Char × JSValue) → Option (List Mismatch)
  | [] => some []
  | (prop, value) :: r =>
    let expected := formatDefaultLiteral value
    match props.find? (fun p => p.name == prop) with
    | none =>
      match assertLoop dtsText interfaceName props r with
      | none => none
      | some ms => some (⟨interfaceName, prop, expected, none⟩ :: ms)
    | some p =>
      match extractLeadingJsdoc dtsText p.headStart with
      | .diverge => none
      | .res found =>
        let fnd := readDefaultLiteralFromJsdoc (found.map fun x => x.2.2)
        match assertLoop dtsText interfaceName props r with
        | none => none
        | some ms =>
          if fnd == some expected then some ms
          else some (⟨interfaceName, prop, expected, fnd⟩ :: ms)

/-- assert.ts lines 111-148, `assertDefaultsInDts`: read-only check; an
interface with no recognizable properties reports every defaults key as
a mismatch with `found` undefined; `ok` is emptiness of the mismatches.
`none` marks the runs on which the source never returns. -/
def assertDefaultsInDts (dtsText interfaceName : List Char)
    (defaults : List (List Char × JSValue)) : Option AssertResult :=
  let props := listInterfaceProps dtsText interfaceName
  if props.isEmpty then
    let ms := defaults.map fun kv =>
      (⟨interfaceName, kv.1, formatDefaultLiteral kv.2, none⟩ : Mismatch)
    some ⟨ms.isEmpty, ms⟩
  else
    match assertLoop dtsText interfaceName props defaults with
    | none => none
    | some ms => some ⟨ms.isEmpty, ms⟩

/-- Number of positions at which `sub` occurs as a substring. -/
def countSub (sub : List Char) : List Char → Nat
  | [] => 0
  | c :: t => (if sub.isPrefixOf (c :: t) then 1 else 0) + countSub sub t

/-- A text with no interface declaration at all. -/
def exNoIface : List Char :=
  chars ("hello")

/-- An interface that exists but yields no property descriptors. -/
def exEmptyIface : List Char :=
  chars ("interface X \x7b \x7d")

/-- Single-property interface with an existing tagless doc comment. -/
def idemText : List Char :=
  chars ("interface X \x7b\n  /** h */\n  foo: string;\n\x7d\n")

/-- Defaults map whose string value contains a tag-shaped substring. -/
def idemDefaults : List (List Char × JSValue) :=
  [((chars ("foo")), .vStr (chars ("x @defaultValue y")))]

/-- Output of the first injection run on `idemText`. -/
def idemOnce : List Char :=
  chars ("interface X \x7b\n  /**\n   *  h\n   * \n   * @default \"x @defaultValue y\"\n   */\n  foo: string;\n\x7d\n")

/-- C1. The spec claims injection is idempotent: a second run on its own
output returns `updatedCount = 0` and byte-identical text, and inject.ts
line 9 documents the function as "Idempotent." On this input the first
run writes the canonical comment, but the second run's raw-text regex
`/@defaultValue(\s|$)/m` fires inside the written literal, so the
property is re-upserted: the text is unchanged byte-for-byte, yet
`updatedCount` is 1, contradicting the claim and the function's own
documentation. -/
theorem c1_second_run_counts_an_update :
    injectDefaultsIntoDts idemText (chars ("X")) idemDefaults .tagDefault =
      some ⟨idemOnce, 1, []⟩ ∧
    injectDefaultsIntoDts idemOnce (chars ("X")) idemDefaults .tagDefault =
      some ⟨idemOnce, 1, []⟩ :=
  ⟨rfl, rfl⟩

/-- Round-trip counterexample input: the named interface is absent, so
injection returns the text unchanged with the key reported missing, and
the assertion on that same text reports the key as a mismatch. -/
theorem c2_roundtrip_counterexample :
    injectDefaultsIntoDts exNoIface (chars ("X"))
        [((chars ("foo")), .vNum 1)] .tagDefault =
      some ⟨exNoIface, 0, [⟨chars ("X"), chars ("foo")⟩]⟩ ∧
    assertDefaultsInDts exNoIface (chars ("X")) [((chars ("foo")), .vNum 1)] =
      some ⟨false, [⟨chars ("X"), chars ("foo"), chars ("1"), none⟩]⟩ :=
  ⟨rfl, rfl⟩

/-- The canonical one-property interface with a preseeded doc comment
(fresh insertion cannot be used: it never terminates, see C3). -/
def preseededX : List Char :=
  chars ("interface X \x7b\n  /** */\n  foo?: string;\n\x7d\n")

/-- Representative runtime values for the round-trip. -/
def roundTripValues : List JSValue :=
  [.vStr (chars ("bar")), .vNum 42, .vBool true, .vNull,
   .vObj [((chars ("a")), .vNum 1)]]

/-- C2 (amended). The round-trip holds once every key of the defaults
map matches a property of the located interface: for each representative
value kind and either preferred tag, injecting into the canonical
preseeded interface updates one property, reports nothing missing, and
the read-only assertion on the updated text returns `ok = true` with no
mismatches. -/
theorem c2_roundtrip_amended (v : JSValue) (hv : v ∈ roundTripValues)
    (tag : PreferredTag) :
    ((injectDefaultsIntoDts preseededX (chars ("X")) [((chars ("foo")), v)] tag).map
        fun r => (r.updatedCount, r.missing)) = some (1, []) ∧
    ((injectDefaultsIntoDts preseededX (chars ("X")) [((chars ("foo")), v)] tag).bind
        fun r => assertDefaultsInDts r.updatedText (chars ("X")) [((chars ("foo")), v)]) =
      some ⟨true, []⟩ := by
  simp only [roundTripValues, List.mem_cons, List.not_mem_nil, or_false] at hv
  rcases hv with rfl | rfl | rfl | rfl | rfl <;> cases tag <;> exact ⟨rfl, rfl⟩

/-- Witness for C2 (amended) at the string value and the default tag. -/
theorem c2_roundtrip_amended_witness :
    (JSValue.vStr (chars ("bar")) ∈ roundTripValues) ∧
    (((injectDefaultsIntoDts preseededX (chars ("X"))
          [((chars ("foo")), JSValue.vStr (chars ("bar")))] .tagDefault).map
        fun r => (r.updatedCount, r.missing)) = some (1, []) ∧
      ((injectDefaultsIntoDts preseededX (chars ("X"))
          [((chars ("foo")), JSValue.vStr (chars ("bar")))] .tagDefault).bind
        fun r => assertDefaultsInDts r.updatedText (chars ("X"))
          [((chars ("foo")), JSValue.vStr (chars ("bar")))]) = some ⟨true, []⟩) :=
  ⟨List.mem_cons_self _ _,
    c2_roundtrip_amended (JSValue.vStr (chars ("bar"))) (List.mem_cons_self _ _) .tagDefault⟩

/-- Multi-line interface whose property has no leading comment. -/
def freshMulti : List Char :=
  chars ("interface X \x7b\n  foo?: string;\n\x7d\n")

/-- The same interface written on a single line. -/
def freshSingle : List Char :=
  chars ("interface X \x7b foo?: string; \x7d")

/-- C3. The spec scenario requires fresh-annotation creation to produce
a block comment indented exactly like the property, one newline from the
property line, which keeps its indentation. The code does neither: on
the multi-line form the `//`-fallback of `extractLeadingJsdoc` never
terminates (once `j` reaches the property's line start,
`lastIndexOf` of the newline at `j - 1` makes `lineStart = j` and the
empty blank line repeats the state forever), so injection never returns
(modeled as `none`); on the single-line form it returns, but the new
comment is spliced after the property's existing indentation (doubling
the opener's indentation) and the property line is left with no
indentation at all. -/
theorem c3_fresh_insert_diverges_or_misindents :
    injectDefaultsIntoDts freshMulti (chars ("X"))
      [((chars ("foo")), .vStr (chars ("bar")))] .tagDefault = none ∧
    injectDefaultsIntoDts freshSingle (chars ("X"))
      [((chars ("foo")), .vStr (chars ("bar")))] .tagDefault =
      some ⟨chars ("interface X \x7b  /**\n  * @default \"bar\"\n  */\nfoo?: string; \x7d"),
        1, []⟩ :=
  ⟨rfl, rfl⟩

/-- Comment carrying both recognized tags with wrong literals. -/
def bothTagsWrong : List Char :=
  chars ("interface X \x7b\n  /**\n   * Has both tags\n   * @default \"wrong\"\n   * @defaultValue \"also-wrong\"\n   */\n  foo?: string;\n\x7d\n")

/-- Comment whose preferred-tag literal already matches but which also
carries the other tag. -/
def bothTagsRight : List Char :=
  chars ("interface X \x7b\n  /**\n   * @default \"correct\"\n   * @defaultValue \"x\"\n   */\n  foo?: string;\n\x7d\n")

/-- Normalized output for `bothTagsWrong`. -/
def bothTagsWrongOut : List Char :=
  chars ("interface X \x7b\n  /**\n   * Has both tags\n   * \n   * @default \"correct\"\n   */\n  foo?: string;\n\x7d\n")

/-- Normalized output for `bothTagsRight`. -/
def bothTagsRightOut : List Char :=
  chars ("interface X \x7b\n  /**\n   * @default \"correct\"\n   */\n  foo?: string;\n\x7d\n")

/-- Comment with both tags whose description prose also mentions
`@defaultValue`; the rewrite keeps description lines verbatim. -/
def c4Prose : List Char :=
  chars ("interface X \x7b\n  /**\n   * See @defaultValue docs\n   * @default \"wrong\"\n   * @defaultValue \"also-wrong\"\n   */\n  foo?: string;\n\x7d\n")

/-- Injection output on `c4Prose`: the prose line survives, so the text
still contains one `@defaultValue`. -/
def c4ProseOut : List Char :=
  chars ("interface X \x7b\n  /**\n   * See @defaultValue docs\n   * \n   * @default \"correct\"\n   */\n  foo?: string;\n\x7d\n")

/-- C4 counterexample. Normalization rewrites only the tag list; a
description line that mentions `@defaultValue` in prose is preserved
verbatim, so the output of a both-tags injection can still contain an
occurrence of `@defaultValue`, contradicting the claimed "zero
occurrences". -/
theorem c4_prose_counterexample :
    injectDefaultsIntoDts c4Prose (chars ("X"))
        [((chars ("foo")), .vStr (chars ("correct")))] .tagDefault =
      some ⟨c4ProseOut, 1, []⟩ ∧
    countSub (chars ("@defaultValue")) c4ProseOut = 1 :=
  ⟨rfl, rfl⟩

/-- C4 (amended). A comment containing both recognized tags always
counts as needing normalization — universally: whenever both raw-text
regexes fire on the comment, the skip test returns `false` for either
preferred tag, so the comment is rewritten even when the preferred
literal already matches. The rewrite collapses the tag list to a single
preferred-tag line; "zero occurrences of `@defaultValue`" additionally
holds when the description prose does not mention the tag, exhibited
exactly on a both-tags comment with wrong literals and on one whose
preferred literal already matches. -/
theorem c4_both_tags_amended (tag : PreferredTag) (raw expected : List Char)
    (h1 : hasTagWS (chars ("@default")) raw = true)
    (h2 : hasTagWS (chars ("@defaultValue")) raw = true) :
    alreadyCorrect tag (some raw) expected = false ∧
    (injectDefaultsIntoDts bothTagsWrong (chars ("X"))
        [((chars ("foo")), .vStr (chars ("correct")))] .tagDefault =
      some ⟨bothTagsWrongOut, 1, []⟩ ∧
      countSub (chars ("@default \"correct\"")) bothTagsWrongOut = 1 ∧
      countSub (chars ("@defaultValue")) bothTagsWrongOut = 0) ∧
    (injectDefaultsIntoDts bothTagsRight (chars ("X"))
        [((chars ("foo")), .vStr (chars ("correct")))] .tagDefault =
      some ⟨bothTagsRightOut, 1, []⟩ ∧
      countSub (chars ("@default \"correct\"")) bothTagsRightOut = 1 ∧
      countSub (chars ("@defaultValue")) bothTagsRightOut = 0) := by
  refine ⟨?_, ⟨rfl, rfl, rfl⟩, ⟨rfl, rfl, rfl⟩⟩
  cases tag <;> simp [alreadyCorrect, h1, h2]

/-- Witness for `c4_both_tags_amended` at a concrete both-tags comment
and preferred tag `default`. -/
theorem c4_both_tags_amended_witness :
    hasTagWS (chars ("@default"))
      (chars ("/** @default \"a\" @defaultValue \"b\" */")) = true ∧
    hasTagWS (chars ("@defaultValue"))
      (chars ("/** @default \"a\" @defaultValue \"b\" */")) = true ∧
    alreadyCorrect .tagDefault
      (some (chars ("/** @default \"a\" @defaultValue \"b\" */")))
      (chars ("\"a\"")) = false :=
  ⟨by decide, by decide,
    (c4_both_tags_amended .tagDefault
      (chars ("/** @default \"a\" @defaultValue \"b\" */")) (chars ("\"a\""))
      (by decide) (by decide)).1⟩

/-- C5. When the named interface cannot be found, injection returns (it
never throws and never stops partway) with the original text unchanged,
`updatedCount = 0`, and every key of the defaults map reported in the
missing list, in order. -/
theorem c5_interface_not_found_reports_all_missing
    (text name : List Char) (defaults : List (List Char × JSValue))
    (tag : PreferredTag) (h : findInterfaceBody text name = none) :
    injectDefaultsIntoDts text name defaults tag =
      some ⟨text, 0, defaults.map fun kv => ⟨name, kv.1⟩⟩ := by
  simp [injectDefaultsIntoDts, listInterfaceProps, h]

/-- Witness for C5 on a text with no interface at all. -/
theorem c5_interface_not_found_witness :
    findInterfaceBody exNoIface (chars ("X")) = none ∧
    injectDefaultsIntoDts exNoIface (chars ("X")) [((chars ("a")), .vNum 2)] .tagDefault =
      some ⟨exNoIface, 0, [⟨chars ("X"), chars ("a")⟩]⟩ :=
  ⟨by decide,
    c5_interface_not_found_reports_all_missing exNoIface (chars ("X"))
      [((chars ("a")), .vNum 2)] .tagDefault (by decide)⟩

/-- Interface body whose string literal contains a closing brace. -/
def braceInString : List Char :=
  chars ("interface X \x7b a: \"\x7d\"; \x7d")

/-- C6 counterexample. The naive walk of `findInterfaceBody` counts the
closing brace inside the string literal `"\x7d"`, so `bodyEnd` is 18 (the
quoted brace, one position after the opening quote at 17) instead of the
true matching brace at 22, which the skipping scanner
`findMatchingBracket` (used only by the declaration-block extractor)
does return. -/
theorem c6_naive_walk_counterexample :
    findInterfaceBody braceInString (chars ("X")) = some ⟨13, 18⟩ ∧
    charAtD braceInString 17 = '"' ∧
    charAtD braceInString 19 = '"' ∧
    findMatchingBracket braceInString 12 '\x7b' '\x7d' = some 22 :=
  ⟨rfl, rfl, rfl, by decide⟩

/-- Characters that cannot start or end a string literal or comment in
the skipping scanner. -/
def cleanChar (c : Char) : Bool :=
  c ≠ '"' && c ≠ squoteChar && c ≠ backtickChar && c ≠ '/' && c ≠ '*'

/-- The naive walk never answers before its starting position. -/
theorem naiveCloseAux_le (l : List Char) :
    ∀ (depth : Int) (pos k : Nat), naiveCloseAux l depth pos = some k → pos ≤ k := by
  induction l with
  | nil =>
    intro depth pos k h
    simp [naiveCloseAux] at h
  | cons c t ih =>
    intro depth pos k h
    simp only [naiveCloseAux] at h
    by_cases h1 : c = '\x7b'
    · rw [if_pos h1] at h
      have := ih _ _ _ h
      omega
    · rw [if_neg h1] at h
      by_cases h2 : c = '\x7d'
      · rw [if_pos h2] at h
        by_cases h3 : depth - 1 = 0
        · rw [if_pos h3] at h
          cases h
          omega
        · rw [if_neg h3] at h
          have := ih _ _ _ h
          omega
      · rw [if_neg h2] at h
        have := ih _ _ _ h
        omega

/-- On a span free of quote, slash and asterisk characters the skipping
scanner of `findMatchingBracket` performs exactly the naive walk of
`findInterfaceBody`: no string or comment state can ever activate. -/
theorem fmbAux_eq_naiveCloseAux (l : List Char) :
    ∀ (depth : Int) (pos k : Nat) (prev : Option Char),
      naiveCloseAux l depth pos = some k →
      (∀ c ∈ l.take (k + 1 - pos), cleanChar c = true) →
      fmbAux '\x7b' '\x7d' l pos prev none false false depth = some k := by
  induction l with
  | nil =>
    intro depth pos k prev h _
    simp [naiveCloseAux] at h
  | cons c t ih =>
    intro depth pos k prev h hb
    have hpk : pos ≤ k := naiveCloseAux_le _ _ _ _ h
    have hsplit : k + 1 - pos = (k - pos) + 1 := by omega
    have hhead : cleanChar c = true := by
      apply hb
      rw [hsplit, List.take_succ_cons]
      exact List.mem_cons_self _ _
    have htail : ∀ x ∈ t.take (k + 1 - (pos + 1)), cleanChar x = true := by
      intro x hx
      apply hb
      rw [hsplit, List.take_succ_cons]
      have h2 : k + 1 - (pos + 1) = k - pos := by omega
      rw [h2] at hx
      exact List.mem_cons_of_mem _ hx
    have hc := hhead
    simp only [cleanChar, Bool.and_eq_true, decide_eq_true_eq] at hc
    obtain ⟨⟨⟨⟨hq, hs⟩, hbq⟩, hsl⟩, hst⟩ := hc
    simp only [naiveCloseAux] at h
    simp only [fmbAux]
    by_cases h1 : c = '\x7b'
    · rw [if_pos h1] at h
      simp only [h1]
      simp only [show ('\x7b' = '/') = False by simp, show ('\x7b' = '*') = False by simp,
        show ('\x7b' = '"') = False by simp,
        show ('\x7b' = squoteChar) = False by simp [squoteChar],
        show ('\x7b' = backtickChar) = False by simp [backtickChar]]
      simp only [decide_False, Bool.and_false, Bool.false_and, Bool.or_false, if_neg,
        Bool.false_eq_true, if_false, decide_True, if_true]
      exact ih _ _ _ _ h htail
    · rw [if_neg h1] at h
      by_cases h2 : c = '\x7d'
      · rw [if_pos h2] at h
        subst h2
        simp only [show ('\x7d' = '/') = False by simp, show ('\x7d' = '*') = False by simp,
          show ('\x7d' = '"') = False by simp,
          show ('\x7d' = squoteChar) = False by simp [squoteChar],
          show ('\x7d' = backtickChar) = False by simp [backtickChar],
          show ('\x7d' = '\x7b') = False by simp]
        simp only [decide_False, Bool.and_false, Bool.false_and, Bool.or_false,
          Bool.false_eq_true, if_false, decide_True, if_true]
        by_cases h3 : depth - 1 = 0
        · rw [if_pos h3] at h
          rw [if_pos h3]
          exact h
        · rw [if_neg h3] at h
          rw [if_neg h3]
          exact ih _ _ _ _ h htail
      · rw [if_neg h2] at h
        have hne : (c = '/') = False := by simp [hsl]
        have hne2 : (c = '*') = False := by simp [hst]
        have hne3 : (c = '"') = False := by simp [hq]
        have hne4 : (c = squoteChar) = False := by simp [hs]
        have hne5 : (c = backtickChar) = False := by simp [hbq]
        have hne6 : (c = '\x7b') = False := by simp [h1]
        have hne7 : (c = '\x7d') = False := by simp [h2]
        simp only [hne, hne2, hne3, hne4, hne5, hne6, hne7, decide_False, Bool.and_false,
          Bool.false_and, Bool.or_false, Bool.false_eq_true, if_false]
        exact ih _ _ _ _ h htail

/-- C6 (amended). The brace walk that locates an interface body counts
every brace, including those inside strings and comments (as the
counterexample shows); the skipping discipline the claim describes lives
in `findMatchingBracket`, used by the declaration-block extractor. The
two agree — and `bodyEnd` is the true matching brace — whenever the
scanned span contains no quote, slash or asterisk characters. -/
theorem c6_naive_walk_amended (text name : List Char) (b : BodyRange)
    (hfb : findInterfaceBody text name = some b)
    (hclean : ∀ c ∈ (text.drop (b.bodyStart - 1)).take (b.bodyEnd + 2 - b.bodyStart),
      cleanChar c = true) :
    findMatchingBracket text (b.bodyStart - 1) '\x7b' '\x7d' = some b.bodyEnd := by
  unfold findInterfaceBody at hfb
  cases hh : findHead text name with
  | none =>
    rw [hh] at hfb
    exact absurd hfb (by simp)
  | some openIdx =>
    rw [hh] at hfb
    dsimp only at hfb
    cases hn : naiveCloseAux (text.drop openIdx) 0 openIdx with
    | none =>
      rw [hn] at hfb
      exact absurd hfb (by simp)
    | some k =>
      rw [hn] at hfb
      dsimp only at hfb
      simp only [Option.some.injEq] at hfb
      subst hfb
      simp only [show openIdx + 1 - 1 = openIdx from by omega] at hclean ⊢
      unfold findMatchingBracket
      apply fmbAux_eq_naiveCloseAux _ _ _ _ _ hn
      have harr : k + 2 - (openIdx + 1) = k + 1 - openIdx := by omega
      rw [harr] at hclean
      exact hclean

/-- Witness for C6 (amended) on a clean single-property interface. -/
theorem c6_naive_walk_amended_witness :
    findInterfaceBody (chars ("interface Z \x7b q: n; \x7d")) (chars ("Z")) =
      some ⟨13, 20⟩ ∧
    (∀ c ∈ ((chars ("interface Z \x7b q: n; \x7d")).drop (13 - 1)).take (20 + 2 - 13),
      cleanChar c = true) ∧
    findMatchingBracket (chars ("interface Z \x7b q: n; \x7d")) (13 - 1) '\x7b' '\x7d' =
      some 20 :=
  ⟨by decide, by decide,
    c6_naive_walk_amended (chars ("interface Z \x7b q: n; \x7d")) (chars ("Z"))
      ⟨13, 20⟩ (by decide) (by decide)⟩

/-- Two interfaces, where B shares the line on which A's property
comment opens. -/
def siblingClobber : List Char :=
  chars ("interface B \x7b b: t; \x7d interface A \x7b /** c */\n  a: t;\n\x7d\n")

/-- Injection output on `siblingClobber`: everything before the comment
closer, including all of interface B, is replaced by the new comment. -/
def siblingClobberOut : List Char :=
  chars ("  /**\n   *  c\n   * \n   * @default 1\n   */\n  a: t;\n\x7d\n")

/-- C7 counterexample. The leading-comment range is extended to the
start of the opener's line, and here that line also carries the whole of
interface B (and A's head), so injecting into A rewrites B's bytes away
entirely. -/
theorem c7_sibling_counterexample :
    injectDefaultsIntoDts siblingClobber (chars ("A"))
        [((chars ("a")), .vNum 1)] .tagDefault =
      some ⟨siblingClobberOut, 1, []⟩ ∧
    hasSub (chars ("interface B \x7b b: t; \x7d")) siblingClobber = true ∧
    hasSub (chars ("interface B")) siblingClobberOut = false :=
  ⟨rfl, by decide, by decide⟩

lemma charAtD_append_left (l S : List Char) (i : Nat) (h : i < l.length) :
    charAtD (l ++ S) i = charAtD l i :=
  List.getD_append l S _ i h

lemma wsWalkBack_append (l S : List Char) :
    ∀ i, i ≤ l.length → wsWalkBack (l ++ S) i = wsWalkBack l i := by
  intro i
  induction i with
  | zero => intro _; rfl
  | succ n ih =>
    intro h
    simp only [wsWalkBack]
    rw [charAtD_append_left l S n (by omega)]
    by_cases hc : extrWs (charAtD l n) = true
    · rw [if_pos hc, if_pos hc]
      exact ih (by omega)
    · rw [if_neg hc, if_neg hc]

lemma isPrefixOf_append_left (sub l S : List Char) (j : Nat)
    (h : j + sub.length ≤ l.length) :
    sub.isPrefixOf ((l ++ S).drop j) = sub.isPrefixOf (l.drop j) := by
  rw [List.drop_append_of_le_length (by omega)]
  by_cases hp : sub.isPrefixOf (l.drop j) = true
  · rw [hp]
    rw [List.isPrefixOf_iff_prefix] at hp ⊢
    exact hp.trans (List.prefix_append _ _)
  · have h2 : ¬ sub.isPrefixOf (l.drop j ++ S) = true := by
      rw [List.isPrefixOf_iff_prefix] at hp ⊢
      intro hcon
      apply hp
      have hlen : sub.length ≤ (l.drop j).length := by
        rw [List.length_drop]
        omega
      obtain ⟨t, ht⟩ := hcon
      have hsub : sub = (l.drop j).take sub.length := by
        calc sub = (sub ++ t).take sub.length := by simp
          _ = (l.drop j ++ S).take sub.length := by rw [ht]
          _ = (l.drop j).take sub.length := List.take_append_of_le_length hlen
      rw [hsub]
      exact List.take_prefix _ _
    rw [Bool.not_eq_true] at hp h2
    rw [hp, h2]

lemma lastIdxAux_append (sub l S : List Char) :
    ∀ f, f + sub.length ≤ l.length →
      lastIdxAux sub (l ++ S) f = lastIdxAux sub l f := by
  intro f
  induction f with
  | zero =>
    intro h
    simp only [lastIdxAux]
    have := isPrefixOf_append_left sub l S 0 (by omega)
    simp only [List.drop_zero] at this
    rw [this]
  | succ n ih =>
    intro h
    simp only [lastIdxAux]
    rw [isPrefixOf_append_left sub l S (n + 1) (by omega)]
    by_cases hc : sub.isPrefixOf (l.drop (n + 1)) = true
    · rw [if_pos hc, if_pos hc]
    · rw [if_neg hc, if_neg hc]
      exact ih (by omega)

lemma naiveCloseAux_append (S : List Char) :
    ∀ (l : List Char) (d : Int) (p k : Nat), naiveCloseAux l d p = some k →
      naiveCloseAux (l ++ S) d p = some k := by
  intro l
  induction l with
  | nil =>
    intro d p k h
    simp [naiveCloseAux] at h
  | cons c t ih =>
    intro d p k h
    simp only [naiveCloseAux, List.cons_append] at h ⊢
    by_cases h1 : c = '\x7b'
    · rw [if_pos h1] at h ⊢
      exact ih _ _ _ h
    · rw [if_neg h1] at h ⊢
      by_cases h2 : c = '\x7d'
      · rw [if_pos h2] at h ⊢
        by_cases h3 : d - 1 = 0
        · rw [if_pos h3] at h ⊢
          exact h
        · rw [if_neg h3] at h ⊢
          exact ih _ _ _ h
      · rw [if_neg h2] at h ⊢
        exact ih _ _ _ h

lemma sliceL_append (l S : List Char) (a b : Nat) (ha : a ≤ l.length) (hb : b ≤ l.length) :
    sliceL (l ++ S) a b = sliceL l a b := by
  unfold sliceL
  rw [List.drop_append_of_le_length ha]
  rw [List.take_append_of_le_length (by rw [List.length_drop]; omega)]

lemma findHead_preseededX (S : List Char) :
    findHead (preseededX ++ S) (chars ("X")) = some 12 := by
  simp +decide [preseededX, findHead, findHeadAux, matchHeadAt, wordBoundaryAt, matchTail,
    matchTailAux, chars, charAtD, List.takeWhile_cons, jsWs]

lemma body_preseededX (S : List Char) :
    findInterfaceBody (preseededX ++ S) (chars ("X")) = some ⟨13, 39⟩ := by
  unfold findInterfaceBody
  rw [findHead_preseededX]
  dsimp only
  have hd : (preseededX ++ S).drop 12 = preseededX.drop 12 ++ S :=
    List.drop_append_of_le_length (by decide)
  rw [hd]
  rw [naiveCloseAux_append S (preseededX.drop 12) 0 12 39 (by decide)]

lemma props_preseededX (S : List Char) :
    listInterfaceProps (preseededX ++ S) (chars ("X")) =
      [⟨chars ("foo"), 25, chars ("  ")⟩] := by
  unfold listInterfaceProps
  rw [body_preseededX]
  dsimp only
  rw [sliceL_append _ _ _ _ (by decide) (by decide)]
  decide

lemma extract_preseededX (S : List Char) :
    extractLeadingJsdoc (preseededX ++ S) 25 = .res (some (14, 22, chars ("/** */"))) := by
  have hw : wsWalkBack (preseededX ++ S) 25 = 22 := by
    rw [wsWalkBack_append _ _ _ (by decide)]
    decide
  have h1 : lastIndexOfFrom (chars ("*/")) (preseededX ++ S) (Int.ofNat 22 - 1) = some 20 := by
    unfold lastIndexOfFrom
    rw [show (Int.ofNat 22 - 1).toNat = 21 from rfl]
    rw [lastIdxAux_append _ _ _ 21 (by decide)]
    decide
  have h2 : lastIndexOfFrom (chars ("/**")) (preseededX ++ S) (Int.ofNat 20 - 2) = some 16 := by
    unfold lastIndexOfFrom
    rw [show (Int.ofNat 20 - 2).toNat = 18 from rfl]
    rw [lastIdxAux_append _ _ _ 18 (by decide)]
    decide
  have h3 : lastIndexOfFrom (chars ("\n")) (preseededX ++ S) (Int.ofNat 16 - 1) = some 13 := by
    unfold lastIndexOfFrom
    rw [show (Int.ofNat 16 - 1).toNat = 15 from rfl]
    rw [lastIdxAux_append _ _ _ 15 (by decide)]
    decide
  have hb : sliceL (preseededX ++ S) (20 + 2) 25 = chars ("\n  ") := by
    rw [sliceL_append _ _ _ _ (by decide) (by decide)]
    decide
  have hr : sliceL (preseededX ++ S) 16 (20 + 2) = chars ("/** */") := by
    rw [sliceL_append _ _ _ _ (by decide) (by decide)]
    decide
  simp only [extractLeadingJsdoc, hw, h1, h2, h3, hb, hr]
  have hall : (chars ("\n  ")).all extrWs = true := by decide
  rw [hall]
  rfl

lemma detectDocIndent_preseededX (S : List Char) :
    detectDocIndent (preseededX ++ S) 14 = [] := by
  unfold detectDocIndent
  have h4 : lastIndexOfFrom (chars ("\n")) (preseededX ++ S) (Int.ofNat 14 - 1) = some 13 := by
    unfold lastIndexOfFrom
    rw [show (Int.ofNat 14 - 1).toNat = 13 from rfl]
    rw [lastIdxAux_append _ _ _ 13 (by decide)]
    decide
  rw [h4]
  dsimp only
  rw [sliceL_append _ _ _ _ (by decide) (by decide)]
  decide

lemma upsert_preseededX (S L : List Char) :
    upsertDefaultForProp (preseededX ++ S) 25 (chars ("  ")) L .tagDefault =
      some (chars ("interface X \x7b\n  /**\n   * @default ") ++ L ++
        chars ("\n   */\n  foo?: string;\n\x7d\n") ++ S) := by
  have hsep : charAtD (preseededX ++ S) 22 = '\n' := by
    rw [charAtD_append_left _ _ _ (by decide)]
    rfl
  have h0 : sliceL (preseededX ++ S) 0 14 = chars ("interface X \x7b\n") := by
    rw [sliceL_append _ _ _ _ (by decide) (by decide)]
    rfl
  have hdrop : (preseededX ++ S).drop 22 = chars ("\n  foo?: string;\n\x7d\n") ++ S := by
    rw [List.drop_append_of_le_length (by decide)]
    rfl
  have hsp : detectStarPadFromDoc (some (chars ("/** */"))) = [' '] := by decide
  have hci : chooseDocIndent (chars ("  ")) (some []) = chars ("  ") := rfl
  have hpj : parseJsdoc (some (chars ("/** */"))) = ⟨[], []⟩ := by decide
  simp only [upsertDefaultForProp, extract_preseededX, Option.map,
    detectDocIndent_preseededX]
  simp only [hsp, hci, hpj]
  simp only [hsep, h0, hdrop]
  simp [renderJsdocCanonical, joinNl, tagNameChars, chars]

/-- C7 (amended). When the sibling text follows the injected interface
(instead of sharing a leading-comment line), injection rewrites only the
interface's own region: for every value and every suffix `S` — in
particular any differently-named interface B declared there — the entire
text after the canonical interface is returned byte-for-byte unchanged. -/
theorem c7_suffix_preserved_amended (v : JSValue) (S : List Char) :
    injectDefaultsIntoDts (preseededX ++ S) (chars ("X")) [((chars ("foo")), v)] .tagDefault =
      some ⟨chars ("interface X \x7b\n  /**\n   * @default ") ++ formatDefaultLiteral v ++
        chars ("\n   */\n  foo?: string;\n\x7d\n") ++ S, 1, []⟩ := by
  have hrd : readDefaultLiteralFromJsdoc (some (chars ("/** */"))) = none := by decide
  have hac : alreadyCorrect .tagDefault (some (chars ("/** */")))
      (formatDefaultLiteral v) = false := by
    simp [alreadyCorrect, hrd]
  have hfind : List.find? (fun p => p.name == chars ("foo"))
      [(⟨chars ("foo"), 25, chars ("  ")⟩ : PropD)] =
      some ⟨chars ("foo"), 25, chars ("  ")⟩ := by decide
  have hbt : buildTasks (chars ("X")) [⟨chars ("foo"), 25, chars ("  ")⟩]
      [((chars ("foo")), v)] =
      ([⟨chars ("foo"), 25, chars ("  "), formatDefaultLiteral v⟩], []) := by
    simp [buildTasks, hfind]
  have hloop : injectLoop .tagDefault
      [⟨chars ("foo"), 25, chars ("  "), formatDefaultLiteral v⟩] (preseededX ++ S) 0 =
      some (chars ("interface X \x7b\n  /**\n   * @default ") ++ formatDefaultLiteral v ++
        chars ("\n   */\n  foo?: string;\n\x7d\n") ++ S, 1) := by
    simp only [injectLoop, extract_preseededX, Option.map, hac, Bool.false_eq_true,
      if_false, upsert_preseededX]
  have hsort : sortTasksDesc [⟨chars ("foo"), 25, chars ("  "), formatDefaultLiteral v⟩] =
      [⟨chars ("foo"), 25, chars ("  "), formatDefaultLiteral v⟩] := rfl
  unfold injectDefaultsIntoDts
  rw [props_preseededX]
  rw [if_neg (by decide)]
  rw [hbt]
  dsimp only
  rw [hsort, hloop]

/-- C8. The literal formatter is total (a Lean function) and agrees with
the reference definition transcribed from the spec on every modeled
runtime value. -/
theorem c8_formatLiteral_matches_spec (v : JSValue) :
    formatDefaultLiteral v = formatLiteral_spec v := by
  cases v with
  | vStr s => rfl
  | vNum n => rfl
  | vBool b => rfl
  | vNull => rfl
  | vArr xs =>
    cases h : jsonStringify (JSValue.vArr xs) with
    | ok o =>
      cases o with
      | none => simp [formatDefaultLiteral, formatLiteral_spec, h]
      | some s => simp [formatDefaultLiteral, formatLiteral_spec, h]
    | error e => simp [formatDefaultLiteral, formatLiteral_spec, h]
  | vObj fs =>
    cases h : jsonStringify (JSValue.vObj fs) with
    | ok o =>
      cases o with
      | none => simp [formatDefaultLiteral, formatLiteral_spec, h]
      | some s => simp [formatDefaultLiteral, formatLiteral_spec, h]
    | error e => simp [formatDefaultLiteral, formatLiteral_spec, h]
  | vOther t k => cases k <;> rfl

/-- C9. An interface that yields no property descriptors — whether the
declaration is absent or present with an unrecognizable body — takes the
same code path as a missing interface: injection returns the text
unchanged with every key missing, and the assertion reports every key as
a mismatch with `found` undefined. -/
theorem c9_no_props_treated_as_missing (text name : List Char)
    (defaults : List (List Char × JSValue)) (tag : PreferredTag)
    (h : listInterfaceProps text name = []) :
    injectDefaultsIntoDts text name defaults tag =
      some ⟨text, 0, defaults.map fun kv => ⟨name, kv.1⟩⟩ ∧
    assertDefaultsInDts text name defaults =
      some ⟨defaults.isEmpty,
        defaults.map fun kv => ⟨name, kv.1, formatDefaultLiteral kv.2, none⟩⟩ := by
  constructor
  · simp [injectDefaultsIntoDts, h]
  · simp [assertDefaultsInDts, h]
    cases defaults <;> simp

/-- Witness for C9: the interface exists (its body is located) but has
no recognizable properties, and both operations treat it exactly like a
missing interface. -/
theorem c9_no_props_treated_as_missing_witness :
    listInterfaceProps exEmptyIface (chars ("X")) = [] ∧
    findInterfaceBody exEmptyIface (chars ("X")) = some ⟨13, 14⟩ ∧
    (injectDefaultsIntoDts exEmptyIface (chars ("X"))
        [((chars ("a")), .vNum 1)] .tagDefault =
      some ⟨exEmptyIface, 0, [⟨chars ("X"), chars ("a")⟩]⟩ ∧
    assertDefaultsInDts exEmptyIface (chars ("X")) [((chars ("a")), .vNum 1)] =
      some ⟨false, [⟨chars ("X"), chars ("a"), chars ("1"), none⟩]⟩) :=
  ⟨by decide, by decide,
    c9_no_props_treated_as_missing exEmptyIface (chars ("X"))
      [((chars ("a")), .vNum 1)] .tagDefault (by decide)⟩

/-- Single-property interface whose canonical comment carries a
tag-shaped substring inside its default literal. -/
def rawRegexText : List Char :=
  chars ("interface Y \x7b\n  /**\n   * @default \"a @defaultValue b\"\n   */\n  bar?: string;\n\x7d\n")

/-- The leading comment of `bar` in `rawRegexText`. -/
def rawRegexComment : List Char :=
  chars ("/**\n   * @default \"a @defaultValue b\"\n   */")

/-- Defaults whose formatted literal contains `@defaultValue `. -/
def rawRegexDefaults : List (List Char × JSValue) :=
  [((chars ("bar")), JSValue.vStr (chars ("a @defaultValue b")))]

/-- C10. The already-correct test reads tag presence off the raw comment
text with `/@defaultValue(\s|$)/m`, not off the parsed tag list: any raw
text where that regex fires is never skipped (first conjunct); on the
concrete input the parsed tags contain no `defaultValue` entry at all
(third conjunct), yet injection re-upserts and counts an update even
though the rewritten text is byte-identical (second conjunct). -/
theorem c10_raw_text_regex_decides :
    (∀ raw expected : List Char, hasTagWS (chars ("@defaultValue")) raw = true →
      alreadyCorrect .tagDefault (some raw) expected = false) ∧
    injectDefaultsIntoDts rawRegexText (chars ("Y")) rawRegexDefaults .tagDefault =
      some ⟨rawRegexText, 1, []⟩ ∧
    (parseJsdoc (some rawRegexComment)).tags =
      [⟨chars ("default"), chars ("\"a @defaultValue b\"")⟩] := by
  refine ⟨?_, rfl, rfl⟩
  intro raw expected hra
  simp [alreadyCorrect, hra]

/-- Witness for C10's regex conjunct at the concrete comment. -/
theorem c10_raw_text_regex_decides_witness :
    hasTagWS (chars ("@defaultValue")) rawRegexComment = true ∧
    alreadyCorrect .tagDefault (some rawRegexComment)
      (chars ("\"a @defaultValue b\"")) = false :=
  ⟨by decide,
    c10_raw_text_regex_decides.1 rawRegexComment
      (chars ("\"a @defaultValue b\"")) (by decide)⟩
